import Mathlib

/-!
Shallow embedding of the JenkinsLLM cleaning pipeline
(src/cleaning: web_cleaner.py, content_validation.py, deduplicator.py,
cleaner.py, config.py, patterns.py) and proofs about the spec claims.

Python strings are modelled as lists of Unicode code points (`PyStr`),
so that lone surrogates (which a Python `str` may contain) are
representable.  Machine-level details that are pure environment data
(the full Unicode alphabetic / cased / lowercase tables above the
Latin-1 range) are abstracted into a `CharModel` parameter; every
character class that the claims exercise (ASCII and Latin-1) is encoded
exactly.  Fallible Python code (code that can raise) returns `Option`.
-/

/-- PyStr models a Python str as the list of its Unicode code points. -/
abbrev PyStr := List Nat

/-- Code points stripped by Python str.strip() and str.split() with no
arguments (the CPython whitespace table). -/
def pyIsSpaceCp (c : Nat) : Bool :=
  ([9, 10, 11, 12, 13, 28, 29, 30, 31, 32, 0x85, 0xA0, 0x1680,
    0x2000, 0x2001, 0x2002, 0x2003, 0x2004, 0x2005, 0x2006, 0x2007,
    0x2008, 0x2009, 0x200A, 0x2028, 0x2029, 0x202F, 0x205F, 0x3000] : List Nat).contains c

/-- Model of Python str.strip(): remove leading and trailing whitespace. -/
def pyStrip (s : PyStr) : PyStr :=
  ((s.dropWhile pyIsSpaceCp).reverse.dropWhile pyIsSpaceCp).reverse

/-- Model of Python text.split(chr(10)): split on every newline, keeping
empty pieces; the result is always non-empty. -/
def splitOnNl : List Nat → List (List Nat)
  | [] => [[]]
  | c :: rest =>
    let r := splitOnNl rest
    if c = 10 then [] :: r else (c :: r.headI) :: r.tail

/-- Model of chr(10).join(lines). -/
def joinLines : List PyStr → PyStr
  | [] => []
  | [l] => l
  | l :: ls => l ++ 10 :: joinLines ls

/-- Shared shape of web_cleaner.py line 23 and content_validation.py
lines 92-97: strip every line of the text and keep the non-blank ones. -/
def stripNonEmptyLines (t : PyStr) : List PyStr :=
  ((splitOnNl t).map pyStrip).filter (fun l => !l.isEmpty)

/-- Model of a Python slice l[start:stop] for 0 <= start <= stop <= len(l),
the only way the repository uses slices on line lists. -/
def pySlice (start stop : Nat) (l : List PyStr) : List PyStr :=
  (l.drop start).take (stop - start)

/-- CharModel abstracts the parts of the Unicode character database that
the repository consults only above the exactly-encoded range: it is
environment data, not program logic, and every theorem below holds for
every CharModel. -/
structure CharModel where
  isAlphaHigh : Nat → Bool
  isAlnumHigh : Nat → Bool
  isUpperHigh : Nat → Bool
  isCasedHigh : Nat → Bool
  lowerHigh : Nat → List Nat

/-- Latin-1 code points for which Python str.isalpha() is true; this is
exactly the membership test of patterns.py LATIN_ALPHA (the alphabetic
characters among chr(0)..chr(255)), and it is false above 0xFF. -/
def latin1Alpha (c : Nat) : Bool :=
  decide (65 ≤ c ∧ c ≤ 90) || decide (97 ≤ c ∧ c ≤ 122) ||
  c == 0xAA || c == 0xB5 || c == 0xBA ||
  decide (0xC0 ≤ c ∧ c ≤ 0xD6) || decide (0xD8 ≤ c ∧ c ≤ 0xF6) ||
  decide (0xF8 ≤ c ∧ c ≤ 0xFF)

/-- Model of Python ch.isalpha(): exact on Latin-1, CharModel above. -/
def pyIsAlpha (cm : CharModel) (c : Nat) : Bool :=
  if c < 0x100 then latin1Alpha c else cm.isAlphaHigh c

/-- ASCII letters, the character class of patterns.py WORD_PATTERN. -/
def asciiAlpha (c : Nat) : Bool :=
  decide (65 ≤ c ∧ c ≤ 90) || decide (97 ≤ c ∧ c ≤ 122)

/-- Model of the regex word class (backslash-w): alphanumeric or
underscore; exact on Latin-1 (letters, digits 0-9, and the Latin-1
numeric signs), CharModel above. -/
def pyIsWordChar (cm : CharModel) (c : Nat) : Bool :=
  if c < 0x100 then
    latin1Alpha c || decide (48 ≤ c ∧ c ≤ 57) ||
    c == 95 || c == 0xB2 || c == 0xB3 || c == 0xB9 ||
    c == 0xBC || c == 0xBD || c == 0xBE
  else cm.isAlnumHigh c

/-- Model of Python ch.lower() for one code point (lowercasing can
change the length of a string, hence a list result): exact on Latin-1
(ASCII A-Z and the Latin-1 uppercase letters map by +32), CharModel
above. -/
def pyLowerChar (cm : CharModel) (c : Nat) : List Nat :=
  if c < 0x100 then
    if (decide (65 ≤ c ∧ c ≤ 90) || decide (0xC0 ≤ c ∧ c ≤ 0xD6) ||
        decide (0xD8 ≤ c ∧ c ≤ 0xDE)) then [c + 32] else [c]
  else cm.lowerHigh c

/-- Model of Python text.lower(). -/
def pyLower (cm : CharModel) (s : PyStr) : PyStr :=
  (s.map (pyLowerChar cm)).flatten

/-- Model of Python ch.isupper() for one code point. -/
def pyIsUpperChar (cm : CharModel) (c : Nat) : Bool :=
  if c < 0x100 then
    decide (65 ≤ c ∧ c ≤ 90) || decide (0xC0 ≤ c ∧ c ≤ 0xD6) ||
    decide (0xD8 ≤ c ∧ c ≤ 0xDE)
  else cm.isUpperHigh c

/-- Cased code points (have an upper/lower distinction); approximated on
Latin-1 by the alphabetic table, CharModel above. -/
def pyIsCased (cm : CharModel) (c : Nat) : Bool :=
  if c < 0x100 then latin1Alpha c else cm.isCasedHigh c

/-- Model of Python s.isupper(): at least one cased character and every
cased character uppercase. -/
def pyIsUpperStr (cm : CharModel) (s : PyStr) : Bool :=
  s.any (pyIsCased cm) && s.all (fun c => !(pyIsCased cm c) || pyIsUpperChar cm c)

/-- UTF-8 encoding of one code point under errors=ignore: lone
surrogates (the only code points a Python str can hold that UTF-8
cannot encode) produce no bytes. -/
def utf8Char (c : Nat) : List Nat :=
  if c < 0x80 then [c]
  else if c < 0x800 then [0xC0 + c / 64, 0x80 + c % 64]
  else if 0xD800 ≤ c ∧ c ≤ 0xDFFF then []
  else if c < 0x10000 then [0xE0 + c / 4096, 0x80 + c / 64 % 64, 0x80 + c % 64]
  else [0xF0 + c / 262144, 0x80 + c / 4096 % 64, 0x80 + c / 64 % 64, 0x80 + c % 64]

/-- Model of text.encode(utf-8, errors=ignore). -/
def utf8Ignore (s : PyStr) : List Nat :=
  (s.map utf8Char).flatten

/-- Byte class of patterns.py PRINTABLE_PATTERN: 0x20-0x7E, tab,
newline, carriage return. -/
def printableByte (b : Nat) : Bool :=
  decide (32 ≤ b ∧ b ≤ 126) || b == 9 || b == 10 || b == 13

/-- Scanner for WORD_PATTERN.findall: collects the maximal ASCII-letter
runs of the text that have a word boundary on both sides (no word
character adjacent).  Arguments: remaining input, current letter run
reversed, whether the run started at a boundary. -/
def findWordsAux (cm : CharModel) : List Nat → List Nat → Bool → List (List Nat)
  | [], acc, startOk =>
    if acc.isEmpty then [] else if startOk then [acc.reverse] else []
  | c :: rest, acc, startOk =>
    if asciiAlpha c then findWordsAux cm rest (c :: acc) startOk
    else
      let tail := findWordsAux cm rest [] (!pyIsWordChar cm c)
      if !acc.isEmpty && startOk && !pyIsWordChar cm c then acc.reverse :: tail
      else tail

/-- Model of WORD_PATTERN.findall(text) from patterns.py. -/
def findWords (cm : CharModel) (s : PyStr) : List PyStr :=
  findWordsAux cm s [] true

/-- Scanner for Python text.split() with no arguments: split on
whitespace runs, discarding empty pieces. -/
def pySplitWsAux : List Nat → List Nat → List (List Nat)
  | [], acc => if acc.isEmpty then [] else [acc.reverse]
  | c :: rest, acc =>
    if pyIsSpaceCp c then
      if acc.isEmpty then pySplitWsAux rest [] else acc.reverse :: pySplitWsAux rest []
    else pySplitWsAux rest (c :: acc)

/-- Model of Python text.split() with no arguments. -/
def pySplitWs (s : PyStr) : List PyStr :=
  pySplitWsAux s []

/-- Sentence terminator class of patterns.py SENTENCE_PATTERN. -/
def sentencePunc (c : Nat) : Bool :=
  c == 46 || c == 33 || c == 63

/-- Scanner for re.split of SENTENCE_PATTERN: pieces between maximal
runs of sentence terminators.  Arguments: remaining input, inside a
terminator run, current piece reversed. -/
def splitPuncAux : List Nat → Bool → List Nat → List (List Nat)
  | [], _, acc => [acc.reverse]
  | c :: rest, inRun, acc =>
    if sentencePunc c then
      if inRun then splitPuncAux rest true []
      else acc.reverse :: splitPuncAux rest true []
    else splitPuncAux rest false (c :: acc)

/-- Model of SENTENCE_PATTERN.split(text). -/
def sentenceSplit (s : PyStr) : List PyStr :=
  splitPuncAux s false []

/-- Configuration dictionary of config.py; thresholds are modelled as
exact rationals. -/
structure CleaningConfig where
  min_text_length : Nat
  max_text_length : Nat
  english_threshold : ℚ
  content_ratio_threshold : ℚ
  printable_ratio_threshold : ℚ
  latin_char_threshold : ℚ
  unique_lines_threshold : ℚ
  word_diversity_threshold : ℚ
  avg_words_min : ℚ
  avg_words_max : ℚ
  batch_size : Nat
  deduplication_enabled : Bool

/-- DEFAULT_CONFIG from config.py. -/
def DEFAULT_CONFIG : CleaningConfig where
  min_text_length := 500
  max_text_length := 20000
  english_threshold := 2/5
  content_ratio_threshold := 1/5
  printable_ratio_threshold := 19/20
  latin_char_threshold := 19/20
  unique_lines_threshold := 1/2
  word_diversity_threshold := 3/10
  avg_words_min := 5
  avg_words_max := 50
  batch_size := 500
  deduplication_enabled := true

/-- Model of content_validation.is_valid_encoding for str (and None)
inputs, the shapes the pipeline passes it.  The input none models the
Python value None (falsy, like the empty string).  The result none
models an uncaught ZeroDivisionError: when the encoded byte string is
empty the printable ratio divides by zero. -/
def is_valid_encoding (config : CleaningConfig) (text : Option PyStr) : Option Bool :=
  match text with
  | none => some false
  | some t =>
    if t.isEmpty then some false
    else
      let text_bytes := utf8Ignore t
      let printable_count := (text_bytes.filter printableByte).length
      let total_chars := text_bytes.length
      if total_chars = 0 then none
      else
        some (decide ((printable_count : ℚ) / total_chars > config.printable_ratio_threshold))

/-- Model of content_validation.is_good (stage 1 filter) for str input.
The result none propagates a ZeroDivisionError raised inside
is_valid_encoding.  The source also computes text_bytes and text_lower
after the encoding check, but never uses either, so they are omitted. -/
def is_good (cm : CharModel) (english_words : List PyStr) (config : CleaningConfig)
    (text : PyStr) : Option Bool :=
  let text_len := text.length
  if ¬ (config.min_text_length < text_len ∧ text_len < config.max_text_length) then
    some false
  else
    match is_valid_encoding config (some text) with
    | none => none
    | some false => some false
    | some true =>
      let latin_chars := (text.filter latin1Alpha).length
      let total_alpha := (text.filter (pyIsAlpha cm)).length
      if 0 < total_alpha ∧ (latin_chars : ℚ) / total_alpha < config.latin_char_threshold then
        some false
      else
        let search_text := pyLower cm (text.take (min 2000 text_len))
        let words := (findWords cm search_text).take 100
        if words.isEmpty then some false
        else
          let english_count := (words.filter (fun w => english_words.contains w)).length
          if (english_count : ℚ) < (words.length : ℚ) * config.english_threshold then
            some false
          else
            let lines := splitOnNl text
            some (decide ((lines.dedup.length : ℚ) / lines.length > config.unique_lines_threshold))

/-- Model of content_validation.quality_check (stage 2 filter).  The
source computes stripped_lines and content_lines in one loop over the
split lines; here they are the equivalent separate traversals. -/
def quality_check (cm : CharModel) (config : CleaningConfig) (text : PyStr) : Bool :=
  if text.length < config.min_text_length then false
  else
    let lines := splitOnNl text
    let lines_len := lines.length
    let stripped_lines := stripNonEmptyLines text
    let content_lines :=
      (lines.filter (fun line =>
        let s := pyStrip line
        !s.isEmpty && decide (40 < s.length) && s.contains 32 && !pyIsUpperStr cm s)).length
    if 5 ≤ stripped_lines.length ∧
        (stripped_lines.dedup.length : ℚ) / stripped_lines.length ≤ 1/2 then false
    else if 0 < lines_len ∧ (content_lines : ℚ) / lines_len ≤ config.content_ratio_threshold then
      false
    else
      let words := pySplitWs (pyLower cm text)
      if 50 ≤ words.length ∧
          (words.dedup.length : ℚ) / words.length ≤ config.word_diversity_threshold then false
      else
        let sentences := ((sentenceSplit text).map pyStrip).filter (fun s => !s.isEmpty)
        if 3 ≤ sentences.length then
          let total_words := ((sentences.map (fun s => (pySplitWs s).length)).sum : ℚ)
          let avg_words := total_words / sentences.length
          decide (config.avg_words_min < avg_words ∧ avg_words < config.avg_words_max)
        else true

/-- Model of web_cleaner.clean_web_content.  The composite effect of
COMBINED_REMOVAL_PATTERN.sub and the CLEANUP_PATTERNS loop from
patterns.py is abstracted as the function subs (a regex engine is
environment machinery; every theorem below holds for every subs).  Text
shorter than 100 characters is returned untouched, as in the source. -/
def clean_web_content (subs : PyStr → PyStr) (text : PyStr) : PyStr :=
  if text.length < 100 then text else subs text

/-- Line list computed by web_cleaner.remove_web_boilerplate before the
final join: strip lines, keep the non-blank ones, and when more than 10
remain cut the slice [n/7 : n - n/7]. -/
def boilerKeptLines (subs : PyStr → PyStr) (text : PyStr) : List PyStr :=
  let cleaned := clean_web_content subs text
  let non_empty_lines := stripNonEmptyLines cleaned
  if 10 < non_empty_lines.length then
    pySlice (non_empty_lines.length / 7)
      (non_empty_lines.length - non_empty_lines.length / 7) non_empty_lines
  else non_empty_lines

/-- Model of web_cleaner.remove_web_boilerplate. -/
def remove_web_boilerplate (subs : PyStr → PyStr) (text : PyStr) : PyStr :=
  joinLines (boilerKeptLines subs text)

/-- Document delimiter written between kept documents. -/
def DELIM : PyStr := [10, 10, 45, 45, 45, 10, 10]

/-- Check that the second list begins with the first. -/
def listStartsWith : List Nat → List Nat → Bool
  | [], _ => true
  | _ :: _, [] => false
  | p :: ps, c :: cs => p == c && listStartsWith ps cs

/-- Cut a list at the first occurrence of DELIM, if any. -/
def findDelimSplit : List Nat → Option (List Nat × List Nat)
  | [] => none
  | c :: rest =>
    if listStartsWith DELIM (c :: rest) then some ([], (c :: rest).drop DELIM.length)
    else
      match findDelimSplit rest with
      | none => none
      | some (a, b) => some (c :: a, b)

/-- Fuel-indexed worker for splitting on DELIM (the fuel only bounds the
recursion depth; one unit per delimiter occurrence is enough). -/
def splitDelimGo : Nat → List Nat → List (List Nat)
  | 0, s => [s]
  | fuel + 1, s =>
    match findDelimSplit s with
    | none => [s]
    | some (a, b) => a :: splitDelimGo fuel b

/-- Model of content.split(delimiter) from Python.  The deduplicator
reads each scratch file in chunks and splits incrementally, but the
document sequence it extracts from one file (including the trailing
buffer) is exactly this split of the whole decoded content. -/
def pySplitDelim (s : PyStr) : List (List Nat) :=
  splitDelimGo s.length s

/-- State of deduplicator.ContentDeduplicator: the hash set, the
documents written to the output file in order, and the kept counter. -/
structure DedupState where
  exact_hashes : List Nat
  outputDocs : List PyStr
  kept_after_dedup : Nat
deriving DecidableEq

/-- Fresh state built by the ContentDeduplicator constructor. -/
def dedupInit : DedupState where
  exact_hashes := []
  outputDocs := []
  kept_after_dedup := 0

/-- Handling of one extracted document (deduplicator.py lines 32-52,
identical for mid-file documents and the trailing buffer): blank
documents are skipped; otherwise the content hash is looked up and, if
new, recorded before the document is written and counted.  The
64-bit xxhash is abstracted as the function hash. -/
def dedupStep (hash : PyStr → Nat) (s : DedupState) (doc : PyStr) : DedupState :=
  if !(pyStrip doc).isEmpty then
    let doc_hash := hash doc
    if doc_hash ∉ s.exact_hashes then
      { exact_hashes := doc_hash :: s.exact_hashes
        outputDocs := s.outputDocs ++ [doc]
        kept_after_dedup := s.kept_after_dedup + 1 }
    else s
  else s

/-- Model of ContentDeduplicator.merge_and_deduplicate on a fresh
deduplicator: fold the document handler over every document of every
scratch file, in order. -/
def merge_and_deduplicate (hash : PyStr → Nat) (temp_files : List PyStr) : DedupState :=
  temp_files.foldl (fun s content => (pySplitDelim content).foldl (dedupStep hash) s) dedupInit

/-- Model of ContentDeduplicator.get_kept_count. -/
def get_kept_count (s : DedupState) : Nat :=
  s.kept_after_dedup

/-- Model of ContentDeduplicator.get_duplicates_removed (Python int
subtraction, hence the Int result). -/
def get_duplicates_removed (s : DedupState) (original_kept : Nat) : Int :=
  (original_kept : Int) - (s.kept_after_dedup : Int)

/-- Per-file counters returned by cleaner.process_file. -/
structure FileStats where
  total : Nat
  kept : Nat
deriving DecidableEq

/-- Successful result of cleaner.process_file_worker: the two counters
plus the scratch file name. -/
structure WorkerResult where
  total : Nat
  kept : Nat
  temp_file : Nat
deriving DecidableEq

/-- Model of cleaner.process_file_worker.  File names are numbers and
the file system is the list of existing file names; outcome is what the
inner process_file call does (returns stats or raises E).  The worker
first creates its scratch file; on success it returns the counters and
the scratch name, on an exception it unlinks the scratch file and
re-raises the same exception. -/
def process_file_worker {E : Type} (temp_name : Nat) (fs : List Nat)
    (outcome : Except E FileStats) : Except E WorkerResult × List Nat :=
  let fs1 := temp_name :: fs
  match outcome with
  | Except.ok stats => (Except.ok ⟨stats.total, stats.kept, temp_name⟩, fs1)
  | Except.error e => (Except.error e, fs1.erase temp_name)

/-- Numbers printed by the final summary of cleaner.preprocess. -/
structure PreprocessSummary where
  total : Nat
  kept : Nat
  kept_after_dedup : Int
  duplicates_removed : Int
deriving DecidableEq

/-- Model of the statistics part of cleaner.preprocess (lines 114-136):
total and kept are the sums over the workers, temp_contents are the
scratch file contents handed to the deduplicator.  Lines 117-118 of the
source are transcribed as they stand:
kept_after_dedup receives get_duplicates_removed(kept) and
duplicates_removed receives get_kept_count(). -/
def preprocessSummary (hash : PyStr → Nat) (dedup_enabled : Bool)
    (total kept : Nat) (temp_contents : List PyStr) : PreprocessSummary :=
  if dedup_enabled then
    let d := merge_and_deduplicate hash temp_contents
    { total := total
      kept := kept
      kept_after_dedup := get_duplicates_removed d kept
      duplicates_removed := (get_kept_count d : Int) }
  else
    { total := total
      kept := kept
      kept_after_dedup := (kept : Int)
      duplicates_removed := 0 }

/-- Trivial character model used to evaluate the embedding on concrete
ASCII inputs (no code point above 0xFF occurs in them, so its high
tables are never consulted). -/
def cmTriv : CharModel where
  isAlphaHigh := fun _ => false
  isAlnumHigh := fun _ => false
  isUpperHigh := fun _ => false
  isCasedHigh := fun _ => false
  lowerHigh := fun c => [c]

/-- Small test configuration used for concrete witnesses (every theorem
is quantified over the configuration). -/
def cfgTest : CleaningConfig where
  min_text_length := 5
  max_text_length := 100
  english_threshold := 2/5
  content_ratio_threshold := 1/5
  printable_ratio_threshold := 19/20
  latin_char_threshold := 19/20
  unique_lines_threshold := 1/2
  word_diversity_threshold := 3/10
  avg_words_min := 5
  avg_words_max := 50
  batch_size := 500
  deduplication_enabled := true

/-- Tiny English lexicon: the words the, cat, sat. -/
def lexTest : List PyStr :=
  [[116, 104, 101], [99, 97, 116], [115, 97, 116]]

/-- Codepoints of the text: the cat sat. -/
def tGood : PyStr := [116, 104, 101, 32, 99, 97, 116, 32, 115, 97, 116]

/-- Five letters: a text whose length is exactly cfgTest.min_text_length. -/
def tMinLen : PyStr := [97, 97, 97, 97, 97]

/-- Identity substitution: stands for the pattern substitutions on a
text that no removal or cleanup pattern matches. -/
def subId : PyStr → PyStr := fun s => s

/-- Concrete stand-in for the 64-bit content hash, used only to
evaluate the deduplicator on concrete inputs. -/
def hashFold (s : PyStr) : Nat :=
  s.foldl (fun a c => a * 1114112 + (c + 1)) 0

/-- Scratch file content holding the documents a, a, b: one exact
duplicate. -/
def c1File : PyStr :=
  [97] ++ DELIM ++ [97] ++ DELIM ++ [98] ++ DELIM

/-- Codepoints of the word hello. -/
def helloLine : PyStr := [104, 101, 108, 108, 111]

/-- Five identical non-blank lines reading hello. -/
def tFiveSame : PyStr :=
  helloLine ++ 10 :: helloLine ++ 10 :: helloLine ++ 10 :: helloLine ++ 10 :: helloLine

/-- Fourteen single-letter lines. -/
def tFourteen : PyStr :=
  [97, 10, 98, 10, 99, 10, 100, 10, 101, 10, 102, 10, 103, 10,
   104, 10, 105, 10, 106, 10, 107, 10, 108, 10, 109, 10, 110]

/-- Two single-letter lines. -/
def tTwoLines : PyStr := [98, 10, 97]

/-- Line list of the cleaned text: the stripped non-blank lines that
remove_web_boilerplate starts from. -/
def cleanLineList (subs : PyStr → PyStr) (t : PyStr) : List PyStr :=
  stripNonEmptyLines (clean_web_content subs t)

/-- Invariant maintained by the deduplicator state: the written
documents have pairwise distinct hashes, and every written document has
its hash recorded in the hash set. -/
def DedupInv (hash : PyStr → Nat) (s : DedupState) : Prop :=
  (s.outputDocs.map hash).Nodup ∧ ∀ d ∈ s.outputDocs, hash d ∈ s.exact_hashes

lemma pyStrip_mem {a : Nat} {s : PyStr} (h : a ∈ pyStrip s) : a ∈ s := by
  unfold pyStrip at h
  rw [List.mem_reverse] at h
  have h2 := (List.dropWhile_sublist (l := (s.dropWhile pyIsSpaceCp).reverse) pyIsSpaceCp).mem h
  rw [List.mem_reverse] at h2
  exact (List.dropWhile_sublist (l := s) pyIsSpaceCp).mem h2

lemma getLast?_dropWhile (p : Nat → Bool) (w : List Nat) (h : w.dropWhile p ≠ []) :
    (w.dropWhile p).getLast? = w.getLast? := by
  induction w with
  | nil => simp [List.dropWhile] at h
  | cons c rest ih =>
    by_cases hc : p c
    · rw [List.dropWhile_cons_of_pos hc] at h ⊢
      have hrest : rest ≠ [] := by
        intro he; rw [he] at h; simp [List.dropWhile] at h
      obtain ⟨r, rs, rfl⟩ := List.exists_cons_of_ne_nil hrest
      rw [ih h, List.getLast?_cons_cons]
    · rw [List.dropWhile_cons_of_neg hc]

lemma pyStrip_idem (s : PyStr) : pyStrip (pyStrip s) = pyStrip s := by
  set p := pyIsSpaceCp with hp
  set u := s.dropWhile p with hu
  set v := u.reverse.dropWhile p with hv
  have hstrip : pyStrip s = v.reverse := rfl
  have hA : v.reverse.dropWhile p = v.reverse := by
    cases hcase : v.reverse with
    | nil => simp
    | cons x xs =>
      have hvne : v ≠ [] := by
        intro he; rw [he] at hcase; simp at hcase
      have hx : v.getLast? = some x := by
        rw [← List.head?_reverse, hcase, List.head?_cons]
      have hune : u ≠ [] := by
        intro he
        have : v = [] := by rw [hv, he]; simp [List.dropWhile]
        exact hvne this
      have hlast : v.getLast? = u.reverse.getLast? := getLast?_dropWhile p u.reverse hvne
      have hur : u.reverse.getLast? = u.head? := List.getLast?_reverse u
      obtain ⟨c, cs, hucs⟩ := List.exists_cons_of_ne_nil hune
      have hhead : p c = false := by
        have hne : s.dropWhile p ≠ [] := by rw [← hu, hucs]; simp
        have hd := List.head_dropWhile_not p s hne
        have hh : (s.dropWhile p).head hne = c := by
          have : s.dropWhile p = c :: cs := by rw [← hu, hucs]
          simp [this]
        rw [hh] at hd
        exact hd
      have hxc : x = c := by
        rw [hur, hucs, List.head?_cons, hx] at hlast
        exact (Option.some_injective _ hlast)
      rw [List.dropWhile_cons_of_neg (by rw [hxc]; simp [hhead])]
  have : pyStrip (pyStrip s) = ((v.reverse.dropWhile p).reverse.dropWhile p).reverse := rfl
  rw [this, hA, List.reverse_reverse, hv, List.dropWhile_idempotent, ← hv, ← hstrip]

lemma splitOnNl_ne_nil (s : List Nat) : splitOnNl s ≠ [] := by
  cases s with
  | nil => simp [splitOnNl]
  | cons c rest =>
    simp only [splitOnNl]
    split <;> simp

lemma mem_splitOnNl_no_nl {l : List Nat} {s : List Nat} (h : l ∈ splitOnNl s) :
    (10 : Nat) ∉ l := by
  induction s generalizing l with
  | nil =>
    simp [splitOnNl] at h
    simp [h]
  | cons c rest ih =>
    obtain ⟨r, rs, hr⟩ := List.exists_cons_of_ne_nil (splitOnNl_ne_nil rest)
    by_cases hc : c = 10
    · simp only [splitOnNl, hc, if_pos rfl] at h
      rcases List.mem_cons.mp h with h1 | h1
      · simp [h1]
      · exact ih h1
    · simp only [splitOnNl, if_neg hc, hr] at h
      rcases List.mem_cons.mp h with h1 | h1
      · have hrmem : r ∈ splitOnNl rest := by rw [hr]; exact List.mem_cons_self r rs
        have hnr : (10 : Nat) ∉ r := ih hrmem
        subst h1
        intro hmem
        rcases List.mem_cons.mp hmem with h2 | h2
        · exact hc h2.symm
        · simp at h2
          exact hnr h2
      · exact ih (by rw [hr]; exact List.mem_cons_of_mem r h1)

lemma splitOnNl_no_nl {a : List Nat} (h : (10 : Nat) ∉ a) : splitOnNl a = [a] := by
  induction a with
  | nil => simp [splitOnNl]
  | cons c rest ih =>
    have hc : c ≠ 10 := by
      intro he; exact h (by rw [he]; exact List.mem_cons_self 10 rest)
    have hrest : (10 : Nat) ∉ rest := fun hm => h (List.mem_cons_of_mem c hm)
    simp only [splitOnNl, if_neg hc, ih hrest]
    simp [List.headI]

lemma splitOnNl_append_nl {a : List Nat} (z : List Nat) (h : (10 : Nat) ∉ a) :
    splitOnNl (a ++ 10 :: z) = a :: splitOnNl z := by
  induction a with
  | nil => simp [splitOnNl]
  | cons c rest ih =>
    have hc : c ≠ 10 := by
      intro he; exact h (by rw [he]; exact List.mem_cons_self 10 rest)
    have hrest : (10 : Nat) ∉ rest := fun hm => h (List.mem_cons_of_mem c hm)
    have hsplit := ih hrest
    simp only [List.cons_append]
    rw [show splitOnNl (c :: (rest ++ 10 :: z)) =
        (if c = 10 then [] :: splitOnNl (rest ++ 10 :: z)
         else (c :: (splitOnNl (rest ++ 10 :: z)).headI) ::
           (splitOnNl (rest ++ 10 :: z)).tail) from rfl]
    rw [if_neg hc, hsplit]
    simp [List.headI]

lemma splitOnNl_joinLines {K : List PyStr} (hne : K ≠ [])
    (h : ∀ l ∈ K, (10 : Nat) ∉ l) : splitOnNl (joinLines K) = K := by
  induction K with
  | nil => exact absurd rfl hne
  | cons l ks ih =>
    cases ks with
    | nil =>
      simp only [joinLines]
      exact splitOnNl_no_nl (h l (List.mem_cons_self l []))
    | cons k kss =>
      have hl : (10 : Nat) ∉ l := h l (List.mem_cons_self l (k :: kss))
      have hrest : ∀ x ∈ k :: kss, (10 : Nat) ∉ x :=
        fun x hx => h x (List.mem_cons_of_mem l hx)
      simp only [joinLines]
      rw [splitOnNl_append_nl (joinLines (k :: kss)) hl, ih (by simp) hrest]

lemma mem_stripNonEmptyLines {l : PyStr} {t : PyStr} (h : l ∈ stripNonEmptyLines t) :
    l ≠ [] ∧ pyStrip l = l ∧ (10 : Nat) ∉ l := by
  unfold stripNonEmptyLines at h
  rw [List.mem_filter] at h
  obtain ⟨hmem, hne⟩ := h
  rw [List.mem_map] at hmem
  obtain ⟨l₀, hl₀, rfl⟩ := hmem
  refine ⟨?_, pyStrip_idem l₀, ?_⟩
  · intro he
    rw [he] at hne
    simp at hne
  · intro hmem10
    exact mem_splitOnNl_no_nl hl₀ (pyStrip_mem hmem10)

lemma boilerKeptLines_eq (subs : PyStr → PyStr) (t : PyStr) :
    boilerKeptLines subs t =
      if 10 < (cleanLineList subs t).length then
        pySlice ((cleanLineList subs t).length / 7)
          ((cleanLineList subs t).length - (cleanLineList subs t).length / 7)
          (cleanLineList subs t)
      else cleanLineList subs t := rfl

lemma mem_boilerKeptLines {l : PyStr} {subs : PyStr → PyStr} {t : PyStr}
    (h : l ∈ boilerKeptLines subs t) :
    l ∈ stripNonEmptyLines (clean_web_content subs t) := by
  rw [boilerKeptLines_eq] at h
  split at h
  · exact List.mem_of_mem_drop (List.mem_of_mem_take h)
  · exact h

lemma boilerKeptLines_props {l : PyStr} {subs : PyStr → PyStr} {t : PyStr}
    (h : l ∈ boilerKeptLines subs t) :
    l ≠ [] ∧ pyStrip l = l ∧ (10 : Nat) ∉ l :=
  mem_stripNonEmptyLines (mem_boilerKeptLines h)

lemma dedupStep_eq (hash : PyStr → Nat) (s : DedupState) (doc : PyStr) :
    dedupStep hash s doc =
      if !(pyStrip doc).isEmpty then
        if hash doc ∉ s.exact_hashes then
          { exact_hashes := hash doc :: s.exact_hashes
            outputDocs := s.outputDocs ++ [doc]
            kept_after_dedup := s.kept_after_dedup + 1 }
        else s
      else s := rfl

lemma dedupStep_inv {hash : PyStr → Nat} {s : DedupState} (doc : PyStr)
    (h : DedupInv hash s) : DedupInv hash (dedupStep hash s doc) := by
  obtain ⟨h1, h2⟩ := h
  rw [dedupStep_eq]
  split
  · split
    · rename_i hnew
      constructor
      · rw [List.map_append, List.nodup_append]
        refine ⟨h1, by simp, ?_⟩
        intro x hx
        simp only [List.map_cons, List.map_nil, List.mem_cons, List.not_mem_nil,
          or_false]
        rw [List.mem_map] at hx
        obtain ⟨d, hd, rfl⟩ := hx
        intro he
        exact hnew (he ▸ h2 d hd)
      · intro d hd
        rw [List.mem_append] at hd
        rcases hd with hd | hd
        · exact List.mem_cons_of_mem _ (h2 d hd)
        · rw [List.mem_singleton] at hd
          subst hd
          exact List.mem_cons_self _ _
    · exact ⟨h1, h2⟩
  · exact ⟨h1, h2⟩

lemma foldl_dedupStep_inv {hash : PyStr → Nat} (docs : List PyStr) (s : DedupState)
    (h : DedupInv hash s) : DedupInv hash (docs.foldl (dedupStep hash) s) := by
  induction docs generalizing s with
  | nil => exact h
  | cons d ds ih => exact ih _ (dedupStep_inv d h)

lemma foldl_files_inv {hash : PyStr → Nat} (files : List PyStr) (s : DedupState)
    (h : DedupInv hash s) :
    DedupInv hash
      (files.foldl (fun s content => (pySplitDelim content).foldl (dedupStep hash) s) s) := by
  induction files generalizing s with
  | nil => exact h
  | cons f fs ih => exact ih _ (foldl_dedupStep_inv _ _ h)

lemma merge_and_deduplicate_inv (hash : PyStr → Nat) (temp_files : List PyStr) :
    DedupInv hash (merge_and_deduplicate hash temp_files) :=
  foldl_files_inv temp_files dedupInit ⟨by simp [dedupInit], by simp [dedupInit]⟩

/-- C4: for every content hash function and every sequence of scratch
file contents, merge_and_deduplicate never writes two documents with
identical exact content to the output: the list of documents it writes
has no duplicates, because each written document has its hash recorded
before writing and any later document with the same hash is skipped. -/
theorem C4_merge_output_has_no_duplicates (hash : PyStr → Nat) (temp_files : List PyStr) :
    (merge_and_deduplicate hash temp_files).outputDocs.Nodup :=
  List.Nodup.of_map hash (merge_and_deduplicate_inv hash temp_files).1

/-- C10: a document that is empty or whitespace-only after stripping is
silently discarded by the deduplicator: the handling step leaves the
state unchanged, so nothing is added to the hash set, nothing is
written, and the kept counter does not move, even when the content was
never seen before. -/
theorem C10_blank_document_discarded (hash : PyStr → Nat) (s : DedupState) (doc : PyStr)
    (h : pyStrip doc = []) : dedupStep hash s doc = s := by
  rw [dedupStep_eq, h]
  simp

/-- C10 witness: the whitespace-only document made of space, newline,
space leaves a fresh deduplicator state untouched. -/
theorem C10_blank_document_discarded_witness :
    dedupStep hashFold dedupInit [32, 10, 32] = dedupInit :=
  C10_blank_document_discarded hashFold dedupInit [32, 10, 32] (by decide)

/-- C1 (code bug evidence): on a run with pre-dedup kept count 3 whose
scratch file holds the documents a, a, b (the deduplicator writes 2 of
them), cleaner.preprocess reports duplicates_removed = 2, which is the
count of documents the deduplicator kept, and reports
kept_after_dedup = 1, which is 3 - 2, the number of duplicates removed:
the two assignments are swapped relative to the deduplicator getters. -/
theorem C1_preprocess_swaps_dedup_stats :
    preprocessSummary hashFold true 3 3 [c1File] =
      { total := 3, kept := 3, kept_after_dedup := 1, duplicates_removed := 2 } ∧
    get_kept_count (merge_and_deduplicate hashFold [c1File]) = 2 ∧
    get_duplicates_removed (merge_and_deduplicate hashFold [c1File]) 3 = 1 := by
  with_unfolding_all decide

/-- C8: process_file_worker creates its scratch file and then, if the
inner processing raises, deletes the scratch file and re-raises the
same exception (no scratch-file residue, the failure stays visible),
while on success it returns the total and kept counters together with
the scratch file name. -/
theorem C8_worker_cleanup_and_reraise {E : Type} (temp_name : Nat) (fs : List Nat)
    (outcome : Except E FileStats) (hfresh : temp_name ∉ fs) :
    (∀ e, outcome = Except.error e →
      process_file_worker temp_name fs outcome = (Except.error e, fs) ∧
      temp_name ∉ (process_file_worker temp_name fs outcome).2) ∧
    (∀ st, outcome = Except.ok st →
      (process_file_worker temp_name fs outcome).1 =
        Except.ok ⟨st.total, st.kept, temp_name⟩) := by
  constructor
  · intro e he
    subst he
    constructor
    · simp [process_file_worker, List.erase_cons_head]
    · simp [process_file_worker, List.erase_cons_head]
      exact hfresh
  · intro st hst
    subst hst
    simp [process_file_worker]

/-- C8 witness: a concrete failing worker deletes scratch file 7 and
re-raises error 42; a concrete successful worker returns its counters
and scratch file name. -/
theorem C8_worker_cleanup_and_reraise_witness :
    (process_file_worker 7 [1, 2] (Except.error 42 : Except Nat FileStats) =
        (Except.error 42, [1, 2]) ∧
      7 ∉ (process_file_worker 7 [1, 2] (Except.error 42 : Except Nat FileStats)).2) ∧
    (process_file_worker 7 [1, 2] (Except.ok ⟨5, 3⟩ : Except Nat FileStats)).1 =
      Except.ok ⟨5, 3, 7⟩ :=
  ⟨(C8_worker_cleanup_and_reraise 7 [1, 2] (Except.error 42) (by decide)).1 42 rfl,
   (C8_worker_cleanup_and_reraise 7 [1, 2] (Except.ok ⟨5, 3⟩) (by decide)).2 ⟨5, 3⟩ rfl⟩

/-- C2 counterexample: the claim asserts a minimum substantial-content
line length strictly greater than one character; but on the one-letter
input a, remove_web_boilerplate outputs the single line a of length 1,
so no such minimum above one exists. -/
theorem C2_no_minimum_above_one :
    ¬ ∃ m, 1 < m ∧ ∀ l ∈ splitOnNl (remove_web_boilerplate subId [97]), m ≤ l.length := by
  rintro ⟨m, hm, hall⟩
  have hmem : [97] ∈ splitOnNl (remove_web_boilerplate subId [97]) := by decide
  have hlen := hall [97] hmem
  simp at hlen
  omega

/-- C2 amended: remove_web_boilerplate splits the cleaned text into
lines, strips each line, and drops exactly the lines that are blank
after stripping (the minimum substantial-content length is one
character, not more): every line it keeps is non-empty and already
stripped. -/
theorem C2_kept_lines_nonblank (subs : PyStr → PyStr) (t : PyStr) :
    ∀ l ∈ boilerKeptLines subs t, l ≠ [] ∧ pyStrip l = l := by
  intro l hl
  obtain ⟨hne, hfix, _⟩ := boilerKeptLines_props hl
  exact ⟨hne, hfix⟩

/-- C2 amended witness: on the input consisting of a space-padded a
line and a blank line, the kept line a is non-empty and stripped. -/
theorem C2_kept_lines_nonblank_witness :
    ([97] : PyStr) ≠ [] ∧ pyStrip [97] = [97] :=
  C2_kept_lines_nonblank subId [32, 97, 32, 10, 32] [97] (by decide)

/-- C6: when the cleaned, stripped, non-blank line list has n > 10
entries, remove_web_boilerplate drops the last floor(n/7) lines and
then the first floor(n/7) lines before rejoining; with 10 or fewer
entries the list is rejoined untrimmed. -/
theorem C6_trim_exactly_one_seventh_each_end (subs : PyStr → PyStr) (t : PyStr) :
    (10 < (cleanLineList subs t).length →
      remove_web_boilerplate subs t =
        joinLines (((cleanLineList subs t).take
            ((cleanLineList subs t).length - (cleanLineList subs t).length / 7)).drop
          ((cleanLineList subs t).length / 7))) ∧
    ((cleanLineList subs t).length ≤ 10 →
      remove_web_boilerplate subs t = joinLines (cleanLineList subs t)) := by
  constructor
  · intro hgt
    unfold remove_web_boilerplate
    rw [boilerKeptLines_eq, if_pos hgt]
    unfold pySlice
    rw [List.take_drop]
    have harith : (cleanLineList subs t).length / 7 +
        ((cleanLineList subs t).length - (cleanLineList subs t).length / 7 -
          (cleanLineList subs t).length / 7) =
        (cleanLineList subs t).length - (cleanLineList subs t).length / 7 := by
      omega
    rw [harith]
  · intro hle
    unfold remove_web_boilerplate
    rw [boilerKeptLines_eq, if_neg (by omega)]

/-- C6 witness: a 14-line input is trimmed by two lines at each end,
and a 2-line input is rejoined untrimmed. -/
theorem C6_trim_exactly_one_seventh_each_end_witness :
    remove_web_boilerplate subId tFourteen =
      joinLines (((cleanLineList subId tFourteen).take
          ((cleanLineList subId tFourteen).length - (cleanLineList subId tFourteen).length / 7)).drop
        ((cleanLineList subId tFourteen).length / 7)) ∧
    remove_web_boilerplate subId tTwoLines = joinLines (cleanLineList subId tTwoLines) :=
  ⟨(C6_trim_exactly_one_seventh_each_end subId tFourteen).1 (by decide),
   (C6_trim_exactly_one_seventh_each_end subId tTwoLines).2 (by decide)⟩

lemma is_good_out_of_range {cm : CharModel} {english_words : List PyStr}
    {cfg : CleaningConfig} {t : PyStr}
    (h : ¬ (cfg.min_text_length < t.length ∧ t.length < cfg.max_text_length)) :
    is_good cm english_words cfg t = some false := by
  unfold is_good
  exact if_pos h

/-- C3: is_good returns true only when the text length lies strictly
between min_text_length and max_text_length, and any text whose length
equals either bound exactly is rejected. -/
theorem C3_is_good_strict_length_gate (cm : CharModel) (english_words : List PyStr)
    (cfg : CleaningConfig) (t : PyStr) :
    (is_good cm english_words cfg t = some true →
      cfg.min_text_length < t.length ∧ t.length < cfg.max_text_length) ∧
    ((t.length = cfg.min_text_length ∨ t.length = cfg.max_text_length) →
      is_good cm english_words cfg t = some false) := by
  constructor
  · intro hgood
    by_contra hcon
    rw [is_good_out_of_range hcon] at hgood
    simp at hgood
  · intro hb
    apply is_good_out_of_range
    rcases hb with h | h <;> omega

/-- C3 witness: a text accepted by is_good indeed has length strictly
inside the configured bounds, and a text of length exactly
min_text_length is rejected. -/
theorem C3_is_good_strict_length_gate_witness :
    (is_good cmTriv lexTest cfgTest tGood = some true ∧
      cfgTest.min_text_length < tGood.length ∧ tGood.length < cfgTest.max_text_length) ∧
    is_good cmTriv lexTest cfgTest tMinLen = some false :=
  ⟨⟨by with_unfolding_all decide,
    (C3_is_good_strict_length_gate cmTriv lexTest cfgTest tGood).1
      (by with_unfolding_all decide)⟩,
   (C3_is_good_strict_length_gate cmTriv lexTest cfgTest tMinLen).2 (Or.inl (by decide))⟩

/-- C7: a text at least min_text_length long with at least 5 non-blank
stripped lines whose distinct-to-total line ratio is at most one half
is rejected by quality_check, before any of the later checks can run. -/
theorem C7_line_diversity_rejection (cm : CharModel) (cfg : CleaningConfig) (t : PyStr)
    (h1 : cfg.min_text_length ≤ t.length)
    (h2 : 5 ≤ (stripNonEmptyLines t).length)
    (h3 : ((stripNonEmptyLines t).dedup.length : ℚ) / (stripNonEmptyLines t).length ≤ 1/2) :
    quality_check cm cfg t = false := by
  unfold quality_check
  rw [if_neg (by omega)]
  exact if_pos ⟨h2, h3⟩

/-- C7 witness: the document of exactly 5 identical non-blank lines
reading hello (distinct ratio 1/5) is rejected by quality_check. -/
theorem C7_line_diversity_rejection_witness :
    quality_check cmTriv cfgTest tFiveSame = false :=
  C7_line_diversity_rejection cmTriv cfgTest tFiveSame (by decide)
    (by decide) (by with_unfolding_all decide)

lemma is_valid_encoding_some_eq (cfg : CleaningConfig) (t : PyStr) :
    is_valid_encoding cfg (some t) =
      if t.isEmpty then some false
      else if (utf8Ignore t).length = 0 then none
      else some (decide ((((utf8Ignore t).filter printableByte).length : ℚ) /
        ((utf8Ignore t).length : ℚ) > cfg.printable_ratio_threshold)) := rfl

/-- C9 counterexample: the non-empty string made of the lone surrogate
U+D800 encodes to zero bytes under errors=ignore, so the printable
ratio divides by zero and is_valid_encoding raises instead of
returning a boolean. -/
theorem C9_surrogate_only_raises :
    ([0xD800] : PyStr) ≠ [] ∧
    is_valid_encoding DEFAULT_CONFIG (some [0xD800]) = none := by
  constructor
  · decide
  · decide

/-- C9 amended: is_valid_encoding returns False on None and on the
empty string, and returns a boolean without raising on every string at
least one of whose characters survives UTF-8 encoding with errors
ignored; only non-empty strings that encode to zero bytes divide by
zero. -/
theorem C9_encoding_total_when_encodable (cfg : CleaningConfig) (t : PyStr) :
    is_valid_encoding cfg none = some false ∧
    is_valid_encoding cfg (some []) = some false ∧
    (utf8Ignore t ≠ [] → ∃ b, is_valid_encoding cfg (some t) = some b) := by
  refine ⟨rfl, rfl, ?_⟩
  intro hne
  rw [is_valid_encoding_some_eq]
  have hemp : t.isEmpty = false := by
    cases t with
    | nil => simp [utf8Ignore] at hne
    | cons c cs => rfl
  rw [hemp]
  rw [if_neg (by simp)]
  rw [if_neg (by simpa using hne)]
  exact ⟨_, rfl⟩

/-- C9 amended witness: the two-letter string hi gets a boolean verdict
from is_valid_encoding under the default configuration. -/
theorem C9_encoding_total_when_encodable_witness :
    ∃ b, is_valid_encoding DEFAULT_CONFIG (some [104, 105]) = some b :=
  (C9_encoding_total_when_encodable DEFAULT_CONFIG [104, 105]).2.2 (by decide)

/-- C5: remove_web_boilerplate is idempotent on its own output when the
output is fixed by the pattern substitutions (no removal or cleanup
pattern matches it) and has at most 10 substantial lines: applying it
again changes nothing. -/
theorem C5_idempotent_on_cleaned_output (subs : PyStr → PyStr) (x : PyStr)
    (hfix : subs (remove_web_boilerplate subs x) = remove_web_boilerplate subs x)
    (hfew : (stripNonEmptyLines (remove_web_boilerplate subs x)).length ≤ 10) :
    remove_web_boilerplate subs (remove_web_boilerplate subs x) =
      remove_web_boilerplate subs x := by
  set K := boilerKeptLines subs x with hK
  have hy : remove_web_boilerplate subs x = joinLines K := rfl
  rw [hy] at hfix hfew ⊢
  by_cases hKnil : K = []
  · rw [hKnil]
    have hempty : joinLines ([] : List PyStr) = [] := rfl
    rw [hempty]
    have hcl : cleanLineList subs [] = [] := by
      unfold cleanLineList clean_web_content
      rw [if_pos (by simp)]
      decide
    unfold remove_web_boilerplate
    rw [boilerKeptLines_eq, hcl]
    simp [joinLines]
  · have hprops : ∀ l ∈ K, l ≠ [] ∧ pyStrip l = l ∧ (10 : Nat) ∉ l := by
      intro l hl
      exact boilerKeptLines_props (hK ▸ hl)
    have hclean : clean_web_content subs (joinLines K) = joinLines K := by
      unfold clean_web_content
      split
      · rfl
      · exact hfix
    have hsplit : splitOnNl (joinLines K) = K :=
      splitOnNl_joinLines hKnil (fun l hl => (hprops l hl).2.2)
    have hmap : K.map pyStrip = K := by
      rw [List.map_congr_left (fun l hl => (hprops l hl).2.1 : ∀ l ∈ K, pyStrip l = id l)]
      exact List.map_id K
    have hfilter : K.filter (fun l => !l.isEmpty) = K :=
      List.filter_eq_self.mpr (fun l hl => by simp [(hprops l hl).1])
    have hlines : stripNonEmptyLines (joinLines K) = K := by
      unfold stripNonEmptyLines
      rw [hsplit, hmap, hfilter]
    have hcll : cleanLineList subs (joinLines K) = K := by
      unfold cleanLineList
      rw [hclean, hlines]
    rw [hlines] at hfew
    unfold remove_web_boilerplate
    rw [boilerKeptLines_eq, hcll, if_neg (by omega)]

/-- C5 witness: the two-line output of remove_web_boilerplate on the
input b, a is left unchanged by a second application. -/
theorem C5_idempotent_on_cleaned_output_witness :
    remove_web_boilerplate subId (remove_web_boilerplate subId tTwoLines) =
      remove_web_boilerplate subId tTwoLines :=
  C5_idempotent_on_cleaned_output subId tTwoLines (by decide) (by decide)
